import Mathlib

/-!
Shallow embedding of `src/spatialbench-cli/src/s3_writer.rs` (the `S3Writer`
buffering upload adapter) and proofs of the specification's claims about it.

Bytes are modelled as `Nat`; a byte slice is a `List Nat`.  The `object_store`
client and the S3 object path are external collaborators (network transport,
URI-to-client glue): the writer state keeps only the fields whose behaviour
the spec describes — the in-progress `buffer`, the sealed `parts`, and the
running `total_bytes` counter.  Network calls are represented by the
deterministic upload plan `finish` computes (which completion protocol is
chosen, which parts are sent, in which order), since the remote side is out
of scope.
-/

/-- Modelled from the spec: the split threshold `PARQUET_BUFFER_SIZE` comes
from `crate::plan`, which is not under `src/`.  The spec and the code comment
at `write` give it as the 32 MB target part size, chosen well above the
provider's minimum part size. -/
def PARQUET_BUFFER_SIZE : Nat := 32 * 1024 * 1024

/-- Minimum part size enforced by AWS S3 for multipart uploads (except the
last part): `const S3_MIN_PART_SIZE: usize = 5 * 1024 * 1024`. -/
def S3_MIN_PART_SIZE : Nat := 5 * 1024 * 1024

/-- The in-memory state of `S3Writer`: the in-progress buffer, the sealed
parts, and the running byte counter.  The `client` and `path` fields of the
Rust struct are opaque external handles and are not modelled. -/
structure S3Writer where
  buffer : List Nat
  parts : List (List Nat)
  total_bytes : Nat
deriving Repr, DecidableEq

/-- Error kinds of `std::io::Error` as used by this file:
`io::ErrorKind::InvalidInput` and the catch-all `io::Error::other`. -/
inductive IoErrorKind where
  | invalidInput
  | other
deriving Repr, DecidableEq

/-- An `std::io::Error`: a kind plus a message. -/
structure IoErr where
  kind : IoErrorKind
  msg : String
deriving Repr, DecidableEq

/-- The outcome of parsing the location string, abstracting the external
`url` crate: a scheme, an optional host (the bucket), and a path (the key).
`none` at the use site stands for an unparseable URI. -/
structure ParsedUrl where
  scheme : String
  host : Option String
  path : String
deriving Repr, DecidableEq

/-- Embedding of `S3Writer::new` (s3_writer.rs lines 45-111).  URI parsing
and client construction are external collaborators, so they enter as data:
`parsed` is the result of `Url::parse` (`none` = parse error) and `clientOk`
says whether `AmazonS3Builder::build` succeeds.  The checks and the initial
state mirror the source: parse failure, a scheme other than `s3`, and a
missing host each yield an `InvalidInput` error; a client build failure
yields an `other` error; otherwise the writer starts with an empty buffer,
no parts, and a zero counter. -/
def S3Writer.new (parsed : Option ParsedUrl) (clientOk : Bool) :
    Except IoErr S3Writer :=
  match parsed with
  | none => .error ⟨.invalidInput, "Invalid S3 URI"⟩
  | some url =>
    if url.scheme ≠ "s3" then
      .error ⟨.invalidInput, "Expected s3 URI"⟩
    else
      match url.host with
      | none => .error ⟨.invalidInput, "S3 URI missing bucket name"⟩
      | some _bucket =>
        if clientOk then
          .ok ⟨[], [], 0⟩
        else
          .error ⟨.other, "Failed to create S3 client"⟩

/-- The writer state right after a successful `S3Writer::new`
(s3_writer.rs lines 104-110): empty buffer, empty parts, counter 0. -/
def S3Writer.initState : S3Writer := ⟨[], [], 0⟩

/-- State transition of `<S3Writer as Write>::write` (s3_writer.rs lines
182-195): append the slice to the buffer and add its length to the counter;
if the buffer has reached `PARQUET_BUFFER_SIZE`, move it into `parts` and
start a fresh empty buffer. -/
def S3Writer.writeStep (s : S3Writer) (buf : List Nat) : S3Writer :=
  let buffer := s.buffer ++ buf
  let total := s.total_bytes + buf.length
  if PARQUET_BUFFER_SIZE ≤ buffer.length then
    ⟨[], s.parts ++ [buffer], total⟩
  else
    ⟨buffer, s.parts, total⟩

/-- Full embedding of `write`: it mutates the state by `writeStep` and
returns `Ok(buf.len())` unconditionally — no branch of the source returns an
error and no I/O is performed. -/
def S3Writer.write (s : S3Writer) (buf : List Nat) :
    Except IoErr (Nat × S3Writer) :=
  .ok (buf.length, s.writeStep buf)

/-- Embedding of `<S3Writer as Write>::flush` (s3_writer.rs lines 197-200):
`Ok(())`, the state untouched. -/
def S3Writer.flush (s : S3Writer) : Except IoErr (Unit × S3Writer) :=
  .ok ((), s)

/-- Folding a whole sequence of `write` calls over a starting state. -/
def S3Writer.writeList (s : S3Writer) (bufs : List (List Nat)) : S3Writer :=
  bufs.foldl S3Writer.writeStep s

/-- First step of `finish` (s3_writer.rs lines 121-124): if the in-progress
buffer is non-empty, push it as the final part. -/
def S3Writer.sealFinal (s : S3Writer) : S3Writer :=
  if s.buffer.isEmpty then s
  else ⟨[], s.parts ++ [s.buffer], s.total_bytes⟩

/-- The completion protocol `finish` chooses: a single whole-object put, or a
multipart session over an ordered list of parts. -/
inductive UploadPlan where
  | simplePut (data : List Nat)
  | multipart (parts : List (List Nat))
deriving Repr, DecidableEq

/-- Remote calls issued by `finish`, in order. -/
inductive S3Action where
  | putObject (data : List Nat)
  | startMultipart
  | uploadPart (data : List Nat)
  | completeMultipart
deriving Repr, DecidableEq

/-- The sequence of remote calls a plan performs: a simple put is one
`put`; a multipart plan is `put_multipart`, then `put_part` for every sealed
part in order, then `complete` (s3_writer.rs lines 133-161). -/
def UploadPlan.actions : UploadPlan → List S3Action
  | .simplePut d => [.putObject d]
  | .multipart ps =>
      .startMultipart :: (ps.map S3Action.uploadPart ++ [.completeMultipart])

/-- Deterministic core of `S3Writer::finish` (s3_writer.rs lines 117-168):
seal the remaining buffer, then choose the plan — the `parts.len() == 1 &&
parts[0].len() < S3_MIN_PART_SIZE` test selects the simple PUT, anything
else the multipart path — and return `self.total_bytes` as the success
value.  The network calls themselves are external; their failure only
propagates an error and is not modelled. -/
def S3Writer.finishPlan (s : S3Writer) : UploadPlan × Nat :=
  let s2 := s.sealFinal
  if s2.parts.length = 1 ∧ (s2.parts.headD []).length < S3_MIN_PART_SIZE then
    (UploadPlan.simplePut (s2.parts.headD []), s2.total_bytes)
  else
    (UploadPlan.multipart s2.parts, s2.total_bytes)

/-- Accessor `S3Writer::buffer_size` (s3_writer.rs lines 176-178): it
returns `self.total_bytes`, not the buffer length. -/
def S3Writer.buffer_size (s : S3Writer) : Nat := s.total_bytes

/-- Accessor `S3Writer::total_bytes` is the field projection
`S3Writer.total_bytes` (s3_writer.rs lines 171-173). -/
def S3Writer.totalBytesAccessor (s : S3Writer) : Nat := s.total_bytes

/-- Recognizer for an `InvalidInput`-kind error result of `new`. -/
def isInputErr : Except IoErr S3Writer → Bool
  | .error ⟨.invalidInput, _⟩ => true
  | _ => false

/-- Unfolding `writeList` on a cons. -/
theorem S3Writer.writeList_cons (s : S3Writer) (b : List Nat)
    (bs : List (List Nat)) :
    s.writeList (b :: bs) = (s.writeStep b).writeList bs := rfl

/-- One `write` moves the appended slice wholly into `parts.flatten ++
buffer`: no byte is lost or reordered. -/
theorem S3Writer.writeStep_content (s : S3Writer) (b : List Nat) :
    (s.writeStep b).parts.flatten ++ (s.writeStep b).buffer
      = s.parts.flatten ++ (s.buffer ++ b) := by
  simp only [S3Writer.writeStep]
  split <;> simp

/-- A whole sequence of writes appends exactly its concatenation to the
data held by the writer. -/
theorem S3Writer.writeList_content (bufs : List (List Nat)) (s : S3Writer) :
    (s.writeList bufs).parts.flatten ++ (s.writeList bufs).buffer
      = s.parts.flatten ++ (s.buffer ++ bufs.flatten) := by
  induction bufs generalizing s with
  | nil => simp [S3Writer.writeList]
  | cons b bs ih =>
      rw [S3Writer.writeList_cons, ih, ← List.append_assoc,
        S3Writer.writeStep_content]
      simp

/-- One `write` adds the slice length to the counter. -/
theorem S3Writer.writeStep_total (s : S3Writer) (b : List Nat) :
    (s.writeStep b).total_bytes = s.total_bytes + b.length := by
  simp only [S3Writer.writeStep]
  split <;> rfl

/-- A sequence of writes adds the sum of the slice lengths to the counter. -/
theorem S3Writer.writeList_total (bufs : List (List Nat)) (s : S3Writer) :
    (s.writeList bufs).total_bytes
      = s.total_bytes + (bufs.map List.length).sum := by
  induction bufs generalizing s with
  | nil => simp [S3Writer.writeList]
  | cons b bs ih =>
      rw [S3Writer.writeList_cons, ih, S3Writer.writeStep_total]
      simp [Nat.add_assoc]

/-- Every part sealed by `write` has length at least the split threshold;
the property is preserved along any sequence of writes. -/
theorem S3Writer.writeList_parts_big (bufs : List (List Nat)) (s : S3Writer)
    (h : ∀ p ∈ s.parts, PARQUET_BUFFER_SIZE ≤ p.length) :
    ∀ p ∈ (s.writeList bufs).parts, PARQUET_BUFFER_SIZE ≤ p.length := by
  induction bufs generalizing s with
  | nil => simpa [S3Writer.writeList] using h
  | cons b bs ih =>
      rw [S3Writer.writeList_cons]
      apply ih
      simp only [S3Writer.writeStep]
      rcases le_or_lt PARQUET_BUFFER_SIZE (s.buffer ++ b).length with hb | hb
      · rw [if_pos hb]
        intro p hp
        rcases List.mem_append.mp hp with hp | hp
        · exact h p hp
        · rw [List.mem_singleton] at hp
          exact hp ▸ hb
      · rw [if_neg (Nat.not_le.mpr hb)]
        exact h

/-- Relation the implicit-invariant claim is about: the byte counter equals
the buffer length plus the sum of the sealed part lengths. -/
def S3Writer.byteInv (s : S3Writer) : Prop :=
  s.total_bytes = s.buffer.length + (s.parts.map List.length).sum

/-- One `write` preserves `byteInv`. -/
theorem S3Writer.writeStep_byteInv (s : S3Writer) (b : List Nat)
    (h : s.byteInv) : (s.writeStep b).byteInv := by
  simp only [S3Writer.byteInv, S3Writer.writeStep] at h ⊢
  split <;> simp <;> omega

/-- A sequence of writes preserves `byteInv`. -/
theorem S3Writer.writeList_byteInv (bufs : List (List Nat)) (s : S3Writer)
    (h : s.byteInv) : (s.writeList bufs).byteInv := by
  induction bufs generalizing s with
  | nil => simpa [S3Writer.writeList] using h
  | cons b bs ih =>
      rw [S3Writer.writeList_cons]
      exact ih _ (s.writeStep_byteInv b h)

/-- After any `write`, the in-progress buffer is strictly below the split
threshold; the property is preserved along any sequence of writes. -/
theorem S3Writer.writeList_buffer_small (bufs : List (List Nat))
    (s : S3Writer) (h : s.buffer.length < PARQUET_BUFFER_SIZE) :
    (s.writeList bufs).buffer.length < PARQUET_BUFFER_SIZE := by
  induction bufs generalizing s with
  | nil => simpa [S3Writer.writeList] using h
  | cons b bs ih =>
      rw [S3Writer.writeList_cons]
      apply ih
      simp only [S3Writer.writeStep]
      split
      · simp [PARQUET_BUFFER_SIZE]
      · next hb => exact Nat.lt_of_not_le hb

/-- Sealing the final buffer keeps the concatenated data: the parts of
`sealFinal s` flatten to `s.parts.flatten ++ s.buffer`. -/
theorem S3Writer.sealFinal_flatten (s : S3Writer) :
    s.sealFinal.parts.flatten = s.parts.flatten ++ s.buffer := by
  simp only [S3Writer.sealFinal]
  split
  · next h => simp [List.isEmpty_iff.mp h]
  · simp

/-- Sealing the final buffer does not change the byte counter. -/
theorem S3Writer.sealFinal_total (s : S3Writer) :
    s.sealFinal.total_bytes = s.total_bytes := by
  simp only [S3Writer.sealFinal]
  split <;> rfl

/-- With a non-empty in-progress buffer, `sealFinal` pushes it as the last
part. -/
theorem S3Writer.sealFinal_of_ne (s : S3Writer) (h : s.buffer ≠ []) :
    s.sealFinal = ⟨[], s.parts ++ [s.buffer], s.total_bytes⟩ := by
  simp [S3Writer.sealFinal, List.isEmpty_iff, h]

/-- The success value of `finishPlan` is always the byte counter: both the
simple-PUT branch and the multipart branch return `self.total_bytes`. -/
theorem S3Writer.finishPlan_snd (s : S3Writer) :
    s.finishPlan.2 = s.total_bytes := by
  simp only [S3Writer.finishPlan]
  split <;> simpa using s.sealFinal_total

/-- C7: for every byte slice, `write` succeeds, accepts the whole slice and
returns its full length; no branch of `write` fails and no network call is
made (the result is computed from the state alone). -/
theorem write_accepts_all (s : S3Writer) (buf : List Nat) :
    S3Writer.write s buf = Except.ok (buf.length, s.writeStep buf) := rfl

/-- C8: `flush` always returns success and leaves the writer state — buffer,
sealed parts and byte counter — exactly as it was, performing no I/O. -/
theorem flush_noop (s : S3Writer) :
    S3Writer.flush s = Except.ok ((), s) := rfl

/-- C10: the `buffer_size` accessor returns the running total of bytes ever
written — the same value as the `total_bytes` accessor — not the length of
the current in-progress buffer. -/
theorem buffer_size_eq_total_bytes (s : S3Writer) :
    s.buffer_size = s.totalBytesAccessor ∧ s.buffer_size = s.total_bytes :=
  ⟨rfl, rfl⟩

/-- C3: after any sequence of writes from a fresh writer, the `total_bytes`
accessor returns exactly the sum of the lengths of all written slices, and
`finish` returns that same total on success. -/
theorem total_bytes_eq_sum_of_writes (bufs : List (List Nat)) :
    (S3Writer.initState.writeList bufs).totalBytesAccessor
        = (bufs.map List.length).sum ∧
    (S3Writer.initState.writeList bufs).finishPlan.2
        = (bufs.map List.length).sum := by
  have h := S3Writer.writeList_total bufs S3Writer.initState
  simp only [S3Writer.initState, Nat.zero_add] at h
  exact ⟨h, by rw [S3Writer.finishPlan_snd]; exact h⟩

/-- C9: the byte counter equals the buffer length plus the sum of the sealed
part lengths — the invariant holds at construction and is preserved by every
`write` and by every `flush`. -/
theorem byte_counter_invariant :
    S3Writer.initState.byteInv ∧
    (∀ (s : S3Writer) (buf : List Nat),
        s.byteInv → (s.writeStep buf).byteInv) ∧
    (∀ (s s2 : S3Writer), s.byteInv →
        S3Writer.flush s = Except.ok ((), s2) → s2.byteInv) := by
  refine ⟨rfl, fun s buf h => s.writeStep_byteInv buf h, ?_⟩
  intro s s2 h hf
  simp only [S3Writer.flush, Except.ok.injEq, Prod.mk.injEq, true_and] at hf
  exact hf ▸ h

/-- Witness for C9 at concrete states: the invariant after one write from a
fresh writer, and after a flush of a small writer state. -/
theorem byte_counter_invariant_witness :
    (S3Writer.initState.writeStep [1, 2, 3]).byteInv ∧
    (⟨[1], [], 1⟩ : S3Writer).byteInv :=
  ⟨byte_counter_invariant.2.1 S3Writer.initState [1, 2, 3] rfl,
   byte_counter_invariant.2.2 ⟨[1], [], 1⟩ ⟨[1], [], 1⟩ rfl rfl⟩

/-- C4 (the code's actual behaviour at the failing input): with zero bytes
ever written, `finish` does not take a single put and does not fail with a
defined empty-object error — it falls through to the multipart path with
zero parts, issuing a session start followed immediately by completion. -/
theorem finish_zero_writes_multipart_empty :
    S3Writer.initState.finishPlan = (UploadPlan.multipart [], 0) ∧
    S3Writer.initState.finishPlan.1.actions
        = [S3Action.startMultipart, S3Action.completeMultipart] := by
  constructor <;> rfl

/-- C1: for any sequence of writes (in particular one whose total exceeds
the split threshold by more than one threshold's worth), at finish time
every sealed part except the last has length at least
`PARQUET_BUFFER_SIZE`, and concatenating all sealed parts in order
reproduces exactly the concatenation of all written slices in write
order. -/
theorem finish_parts_sized_and_concat (bufs : List (List Nat))
    (h : 2 * PARQUET_BUFFER_SIZE < (bufs.map List.length).sum) :
    (∀ p ∈ (S3Writer.initState.writeList bufs).sealFinal.parts.dropLast,
        PARQUET_BUFFER_SIZE ≤ p.length) ∧
    (S3Writer.initState.writeList bufs).sealFinal.parts.flatten
        = bufs.flatten := by
  have hbig := S3Writer.writeList_parts_big bufs S3Writer.initState
    (by intro p hp; simp [S3Writer.initState] at hp)
  have hcontent := S3Writer.writeList_content bufs S3Writer.initState
  simp only [show S3Writer.initState.parts = [] from rfl,
    show S3Writer.initState.buffer = [] from rfl, List.flatten_nil,
    List.nil_append] at hcontent
  constructor
  · simp only [S3Writer.sealFinal]
    split
    · intro p hp
      exact hbig p (List.dropLast_subset _ hp)
    · intro p hp
      rw [List.dropLast_concat] at hp
      exact hbig p hp
  · rw [S3Writer.sealFinal_flatten, hcontent]

/-- Witness for C1: a single write of `2 * PARQUET_BUFFER_SIZE + 1` zero
bytes, whose total exceeds the threshold by more than one threshold. -/
theorem finish_parts_sized_and_concat_witness :
    (∀ p ∈ (S3Writer.initState.writeList
          [List.replicate (2 * PARQUET_BUFFER_SIZE + 1) 0]
        ).sealFinal.parts.dropLast,
        PARQUET_BUFFER_SIZE ≤ p.length) ∧
    (S3Writer.initState.writeList
          [List.replicate (2 * PARQUET_BUFFER_SIZE + 1) 0]
        ).sealFinal.parts.flatten
        = [List.replicate (2 * PARQUET_BUFFER_SIZE + 1) 0].flatten :=
  finish_parts_sized_and_concat _ (by simp)

/-- C5 as stated is false: the empty sequence of writes has total length
`0 < PARQUET_BUFFER_SIZE`, yet at finish time zero sealed parts exist, not
exactly one. -/
theorem small_total_single_part_cex :
    ((([] : List (List Nat)).map List.length).sum < PARQUET_BUFFER_SIZE) ∧
    (S3Writer.initState.writeList []).sealFinal.parts.length ≠ 1 := by
  constructor
  · decide
  · decide

/-- C5 amended: for every sequence of writes whose total length is positive
and less than the split threshold, exactly one sealed part exists at finish
time, and its content is the concatenation of all written slices in
order. -/
theorem small_positive_total_single_part (bufs : List (List Nat))
    (hpos : 0 < (bufs.map List.length).sum)
    (hlt : (bufs.map List.length).sum < PARQUET_BUFFER_SIZE) :
    (S3Writer.initState.writeList bufs).sealFinal.parts
        = [bufs.flatten] := by
  have htot := S3Writer.writeList_total bufs S3Writer.initState
  have hinv := S3Writer.writeList_byteInv bufs S3Writer.initState rfl
  have hbig := S3Writer.writeList_parts_big bufs S3Writer.initState
    (by intro p hp; simp [S3Writer.initState] at hp)
  have hcontent := S3Writer.writeList_content bufs S3Writer.initState
  simp only [show S3Writer.initState.parts = [] from rfl,
    show S3Writer.initState.buffer = [] from rfl,
    show S3Writer.initState.total_bytes = 0 from rfl, List.flatten_nil,
    List.nil_append, Nat.zero_add] at htot hcontent
  set s := S3Writer.initState.writeList bufs with hs
  have hparts : s.parts = [] := by
    cases hp : s.parts with
    | nil => rfl
    | cons p rest =>
        exfalso
        have h1 : PARQUET_BUFFER_SIZE ≤ p.length :=
          hbig p (by rw [hp]; exact List.mem_cons_self p rest)
        have h2 := hinv
        rw [S3Writer.byteInv, hp] at h2
        simp only [List.map_cons, List.sum_cons] at h2
        omega
  have hbuf : s.buffer = bufs.flatten := by
    rw [hparts] at hcontent
    simpa using hcontent
  have hlen : s.buffer.length = (bufs.map List.length).sum := by
    have h2 := hinv
    rw [S3Writer.byteInv, hparts] at h2
    simp only [List.map_nil, List.sum_nil, Nat.add_zero] at h2
    omega
  have hne : s.buffer ≠ [] := by
    intro h0
    rw [h0] at hlen
    simp at hlen
    omega
  rw [S3Writer.sealFinal_of_ne s hne]
  simp [hparts, hbuf]

/-- C2: at finish time, if exactly one part is sealed and it is below
`S3_MIN_PART_SIZE`, the single-put path is taken with that part's bytes;
if two or more parts exist, or the lone part is at or above the minimum,
the multipart path is taken, uploading every sealed part in original write
order as one session part each and then issuing the session-completion
call. -/
theorem finish_path_selection (s : S3Writer) :
    (s.sealFinal.parts.length = 1 ∧
        (s.sealFinal.parts.headD []).length < S3_MIN_PART_SIZE →
      s.finishPlan.1 = UploadPlan.simplePut (s.sealFinal.parts.headD []) ∧
      s.finishPlan.1.actions
        = [S3Action.putObject (s.sealFinal.parts.headD [])]) ∧
    (2 ≤ s.sealFinal.parts.length ∨
        (s.sealFinal.parts.length = 1 ∧
          S3_MIN_PART_SIZE ≤ (s.sealFinal.parts.headD []).length) →
      s.finishPlan.1 = UploadPlan.multipart s.sealFinal.parts ∧
      s.finishPlan.1.actions
        = S3Action.startMultipart ::
            (s.sealFinal.parts.map S3Action.uploadPart
              ++ [S3Action.completeMultipart])) := by
  constructor
  · rintro ⟨h1, h2⟩
    rw [S3Writer.finishPlan]
    rw [if_pos ⟨h1, h2⟩]
    exact ⟨rfl, rfl⟩
  · intro h
    have hneg : ¬(s.sealFinal.parts.length = 1 ∧
        (s.sealFinal.parts.headD []).length < S3_MIN_PART_SIZE) := by
      rcases h with h | ⟨h1, h2⟩
      · rintro ⟨h1, _⟩
        omega
      · rintro ⟨_, h3⟩
        omega
    rw [S3Writer.finishPlan]
    rw [if_neg hneg]
    exact ⟨rfl, rfl⟩

/-- Witness for C2: a writer with a lone 3-byte buffer takes the single
put; a writer with two sealed parts takes the multipart path with both
parts in order. -/
theorem finish_path_selection_witness :
    (⟨[1, 2, 3], [], 3⟩ : S3Writer).finishPlan.1
        = UploadPlan.simplePut [1, 2, 3] ∧
    (⟨[], [[1], [2]], 2⟩ : S3Writer).finishPlan.1
        = UploadPlan.multipart [[1], [2]] :=
  ⟨((finish_path_selection ⟨[1, 2, 3], [], 3⟩).1 (by decide)).1,
   ((finish_path_selection ⟨[], [[1], [2]], 2⟩).2 (Or.inl (by decide))).1⟩

/-- C6: construction fails with an `InvalidInput`-kind error exactly when
the location string does not parse, the scheme is not `s3`, or the host
(bucket) component is missing; otherwise, when the client builds, it
returns a writer with an empty buffer, an empty parts list and a zero byte
counter. -/
theorem new_input_error_iff (parsed : Option ParsedUrl) (clientOk : Bool) :
    (isInputErr (S3Writer.new parsed clientOk) = true ↔
      parsed = none ∨
        ∃ u, parsed = some u ∧ (u.scheme ≠ "s3" ∨ u.host = none)) ∧
    (∀ u, parsed = some u → u.scheme = "s3" → u.host ≠ none →
      clientOk = true →
      S3Writer.new parsed clientOk = Except.ok ⟨[], [], 0⟩) := by
  cases parsed with
  | none =>
      constructor
      · simp [S3Writer.new, isInputErr]
      · intro u hu
        cases hu
  | some u =>
      constructor
      · by_cases hs : u.scheme = "s3"
        · cases hh : u.host with
          | none => simp [S3Writer.new, isInputErr, hs, hh]
          | some b =>
              cases clientOk <;>
                simp [S3Writer.new, isInputErr, hs, hh]
        · simp [S3Writer.new, isInputErr, hs]
      · intro v hv hs hh hc
        cases hv
        subst hc
        cases hb : u.host with
        | none => exact absurd hb hh
        | some b => simp [S3Writer.new, hs, hb]

/-- Witness for C6: a well-formed parse result with scheme `s3` and a
bucket, with a successful client build, yields the fresh empty writer. -/
theorem new_input_error_iff_witness :
    S3Writer.new (some ⟨"s3", some "bucket", "/key"⟩) true
        = Except.ok ⟨[], [], 0⟩ :=
  (new_input_error_iff (some ⟨"s3", some "bucket", "/key"⟩) true).2
    ⟨"s3", some "bucket", "/key"⟩ rfl rfl (by simp) rfl

/-- Witness for the amended C5: two writes of total length 3, positive and
far below the threshold, yield exactly one sealed part `[1, 2, 3]`. -/
theorem small_positive_total_single_part_witness :
    0 < (([[1], [2, 3]] : List (List Nat)).map List.length).sum ∧
    (([[1], [2, 3]] : List (List Nat)).map List.length).sum
        < PARQUET_BUFFER_SIZE ∧
    (S3Writer.initState.writeList [[1], [2, 3]]).sealFinal.parts
        = [([[1], [2, 3]] : List (List Nat)).flatten] :=
  ⟨by decide, by decide,
   small_positive_total_single_part [[1], [2, 3]] (by decide) (by decide)⟩
